import Mathlib

/-
Verification of the dbsync schema-and-data reconciliation engine.

The definitions below are a shallow embedding of the Python sources
src/dbsync/database.py and src/dbsync/runner.py.  Pure computations
(diff computation, SQL statement rendering, row partitioning) become
Lean functions over explicit data; database state and the interactive
operator are folded in as explicit arguments (value lists, response
traces, a decision oracle).  SQL values are modelled by the inductive
type Value, with Value.null standing for SQL NULL / Python None; a row
is an ordered association list from column name to value, mirroring a
Python dict produced by the psycopg dict_row factory.
-/

/-- A database value as seen by the sync tool: NULL, an integer, or a
string.  Python transports row values opaquely; these constructors are
enough to express every behaviour the engine inspects (only comparison
for equality and the None test are ever performed). -/
inductive Value where
  | null : Value
  | int (n : Int) : Value
  | str (s : String) : Value
deriving DecidableEq

/-- Embedding of dataclass ColumnSchema from database.py: column name,
rendered PostgreSQL type, nullability flag, and optional default
expression. -/
structure ColumnSchema where
  name : String
  column_type : String
  is_nullable : Bool
  default : Option String
deriving DecidableEq

/-- Embedding of dataclass TableSchema from database.py: table name,
ordered columns, primary-key column names in ordinal order. -/
structure TableSchema where
  name : String
  columns : List ColumnSchema
  primary_key : List String
deriving DecidableEq

/-- Embedding of dataclass SchemaSnapshot from database.py.  The Python
field is a dict keyed by table name (built by from_tables with key
table.name), so the model keeps the ordered list of tables together
with the dict invariant that names are distinct. -/
structure SchemaSnapshot where
  tables : List TableSchema
  nodup_names : (tables.map TableSchema.name).Nodup

/-- Embedding of dataclass SchemaDiff from runner.py.  The two column
maps are insertion-ordered association lists, mirroring Python dicts. -/
structure SchemaDiff where
  new_tables : List TableSchema
  missing_tables : List TableSchema
  orphan_columns : List (String × List String)
  missing_columns : List (String × List ColumnSchema)
deriving DecidableEq

/-- Boolean membership test, the model of the Python `in` operator on
lists and sets of hashable values. -/
def elemBy {α : Type} [DecidableEq α] (a : α) : List α → Bool
  | [] => false
  | x :: xs => if x = a then true else elemBy a xs

/-- First table with the given name, the model of a dict lookup
`snapshot.tables[name]` (names are unique in every snapshot). -/
def findTable : List TableSchema → String → Option TableSchema
  | [], _ => none
  | t :: ts, n => if t.name = n then some t else findTable ts n

/-- Model of the Python membership test `name in snapshot.tables`. -/
def containsName (ts : List TableSchema) (n : String) : Bool :=
  (findTable ts n).isSome

/-- Names of the columns of a table, in column order. -/
def colNames (t : TableSchema) : List String :=
  t.columns.map ColumnSchema.name

/-- Insert a string into a (sorted) list in order. -/
def insertSorted (x : String) : List String → List String
  | [] => [x]
  | y :: ys => if x ≤ y then x :: y :: ys else y :: insertSorted x ys

/-- Insertion sort on strings, the model of Python sorted(). -/
def sortStrings (l : List String) : List String :=
  l.foldr insertSorted []

/-- Drop duplicates, keeping first occurrences; together with a filter
this models building a Python set from a list. -/
def dedupKeepFirst {α : Type} [DecidableEq α] (seen : List α) : List α → List α
  | [] => []
  | x :: xs =>
    if elemBy x seen then dedupKeepFirst seen xs
    else x :: dedupKeepFirst (x :: seen) xs

/-- Association-list lookup, the model of `d.get(k)` / `d[k]` on a
Python dict with string keys. -/
def lookupAssoc {β : Type} : List (String × β) → String → Option β
  | [], _ => none
  | p :: ps, k => if p.1 = k then some p.2 else lookupAssoc ps k

/-- Association-list store, the model of `d[k] = v`: overwrite in place
when the key exists, append otherwise. -/
def setAssoc {β : Type} : List (String × β) → String → β → List (String × β)
  | [], k, v => [(k, v)]
  | p :: ps, k, v =>
    if p.1 = k then (k, v) :: ps else p :: setAssoc ps k v

/-- Association-list extend, the model of `d.setdefault(k, []).extend(vs)`. -/
def appendAssoc {β : Type} : List (String × List β) → String → List β → List (String × List β)
  | [], k, vs => [(k, vs)]
  | p :: ps, k, vs =>
    if p.1 = k then (k, p.2 ++ vs) :: ps else p :: appendAssoc ps k vs

/-- Escape a PostgreSQL identifier body by doubling embedded quotes,
as psycopg sql.Identifier does. -/
def sqlIdentChars : List Char → List Char
  | [] => []
  | ch :: rest =>
    if ch = '"' then '"' :: '"' :: sqlIdentChars rest
    else ch :: sqlIdentChars rest

/-- Rendering of psycopg sql.Identifier: the name wrapped in double
quotes with embedded quotes doubled. -/
def sqlIdent (s : String) : String :=
  "\"" ++ String.mk (sqlIdentChars s.data) ++ "\""

/-- Join string parts with a separator, the model of
sql.SQL(sep).join(parts). -/
def stringJoin (sep : String) : List String → String
  | [] => ""
  | [x] => x
  | x :: y :: rest => x ++ sep ++ stringJoin sep (y :: rest)

/-- Whether the second list occurs as a prefix of the first argument
list...  argument order: listStarts needle hay decides whether hay
starts with needle. -/
def listStarts {α : Type} [DecidableEq α] : List α → List α → Bool
  | [], _ => true
  | _ :: _, [] => false
  | a :: as, b :: bs => if a = b then listStarts as bs else false

/-- Whether needle occurs as a contiguous sublist of hay. -/
def listInfix {α : Type} [DecidableEq α] (needle : List α) : List α → Bool
  | [] => needle.isEmpty
  | x :: rest => listStarts needle (x :: rest) || listInfix needle rest

/-- Model of the Python substring test `needle in hay`. -/
def strContains (hay needle : String) : Bool :=
  listInfix needle.data hay.data

/-- Python truthiness of the optional default expression: present and
not the empty string. -/
def defaultTruthy (c : ColumnSchema) : Bool :=
  match c.default with
  | some d => decide (d ≠ "")
  | none => false

/-- Embedding of PostgresInspector._column_definition from
database.py: the rendered column definition used by create_table.  The
guard mirrors `column.default and "nextval" in column.default.lower()
and "integer" in column.column_type.lower()`. -/
def columnDefinition (c : ColumnSchema) : String :=
  let serial :=
    defaultTruthy c
      && strContains (c.default.getD "").toLower "nextval"
      && strContains c.column_type.toLower "integer"
  if serial then
    stringJoin " " [sqlIdent c.name, "SERIAL"]
  else
    let clause :=
      (if c.is_nullable then [] else ["NOT NULL"])
        ++ (if defaultTruthy c then ["DEFAULT " ++ c.default.getD ""] else [])
    stringJoin " " ([sqlIdent c.name, c.column_type] ++ clause)

/-- The default expression of a column read as the specification
reads it: an absent or empty default string counts as no default
expression at all. -/
def specDefault (c : ColumnSchema) : Option String :=
  match c.default with
  | some d => if d = "" then none else some d
  | none => none

/-- Rendering of a column definition as the specification describes
it: SERIAL exactly when the type string contains "integer" and the
default expression contains "nextval" (both case-insensitively), and
otherwise name, type, NOT NULL when non-nullable, DEFAULT when a
default expression is present, in that order. -/
def columnDefinitionSpec (c : ColumnSchema) : String :=
  let serial :=
    strContains c.column_type.toLower "integer"
      && (match specDefault c with
          | some d => strContains d.toLower "nextval"
          | none => false)
  if serial then sqlIdent c.name ++ " SERIAL"
  else
    sqlIdent c.name ++ " " ++ c.column_type
      ++ (if c.is_nullable then "" else " NOT NULL")
      ++ (match specDefault c with
          | some d => " DEFAULT " ++ d
          | none => "")

/-- Embedding of PostgresInspector.add_column from database.py: the
rendered ALTER TABLE statement.  The parts list carries the column
name, its type, and a DEFAULT clause when the default is truthy; the
nullability flag is never consulted. -/
def addColumnStatement (tableName : String) (c : ColumnSchema) : String :=
  let parts :=
    [sqlIdent c.name, c.column_type]
      ++ (if defaultTruthy c then ["DEFAULT " ++ c.default.getD ""] else [])
  "ALTER TABLE " ++ sqlIdent tableName ++ " ADD COLUMN " ++ stringJoin " " parts

/-- Rendering of add_column as the specification describes it:
`ALTER TABLE t ADD COLUMN name type [DEFAULT expr]`, with no NOT NULL
clause; the nullability flag does not occur in this definition at
all. -/
def addColumnSpec (tableName : String) (c : ColumnSchema) : String :=
  "ALTER TABLE " ++ sqlIdent tableName ++ " ADD COLUMN " ++ sqlIdent c.name
    ++ " " ++ c.column_type
    ++ (match specDefault c with
        | some d => " DEFAULT " ++ d
        | none => "")

/-- Claim C4: _column_definition emits SERIAL with no NOT NULL and no
DEFAULT clause exactly when the type string contains "integer" and the
default expression contains "nextval" (case-insensitively); every
other column is rendered as name, type, optional NOT NULL, optional
DEFAULT, in that order, each clause included iff present, so any other
integer column preserves its default. -/
theorem column_definition_matches_spec (c : ColumnSchema) :
    columnDefinition c = columnDefinitionSpec c := by
  rcases c with ⟨n, ty, nl, d⟩
  cases d with
  | none =>
    cases nl <;>
      (simp [columnDefinition, columnDefinitionSpec, defaultTruthy, specDefault,
        stringJoin] <;> apply String.ext <;> simp [String.data_append, stringJoin])
  | some d =>
    by_cases hd : d = ""
    · subst hd
      cases nl <;>
        (simp [columnDefinition, columnDefinitionSpec, defaultTruthy, specDefault,
          stringJoin] <;> apply String.ext <;> simp [String.data_append, stringJoin])
    · by_cases hnv : strContains d.toLower "nextval"
      · by_cases hint : strContains ty.toLower "integer"
        · simp [columnDefinition, columnDefinitionSpec, defaultTruthy, specDefault,
            hd, hnv, hint, stringJoin]
          apply String.ext
          simp [String.data_append]
        · cases nl <;>
            (simp [columnDefinition, columnDefinitionSpec, defaultTruthy, specDefault,
              hd, hnv, hint, stringJoin] <;> apply String.ext <;>
              simp [String.data_append, stringJoin])
      · cases nl <;>
          (simp [columnDefinition, columnDefinitionSpec, defaultTruthy, specDefault,
            hd, hnv, stringJoin] <;> apply String.ext <;>
            simp [String.data_append, stringJoin])

/-- Claim C9: add_column emits ALTER TABLE t ADD COLUMN name type with
an optional DEFAULT clause and never a NOT NULL clause; the rendered
statement is independent of the nullability flag of the column, so the
column is added as nullable even when the schema marks it non-null. -/
theorem add_column_matches_spec (tableName : String) (c : ColumnSchema) :
    addColumnStatement tableName c = addColumnSpec tableName c
      ∧ ∀ b : Bool,
          addColumnStatement tableName { c with is_nullable := b }
            = addColumnStatement tableName c := by
  constructor
  · rcases c with ⟨n, ty, nl, d⟩
    cases d with
    | none =>
      simp [addColumnStatement, addColumnSpec, defaultTruthy, specDefault, stringJoin]
      apply String.ext
      simp [String.data_append]
    | some d =>
      by_cases hd : d = ""
      · subst hd
        simp [addColumnStatement, addColumnSpec, defaultTruthy, specDefault, stringJoin]
        apply String.ext
        simp [String.data_append]
      · simp [addColumnStatement, addColumnSpec, defaultTruthy, specDefault, hd,
          stringJoin]
        apply String.ext
        simp [String.data_append]
  · intro b
    rcases c with ⟨n, ty, nl, d⟩
    rfl

/-- Sorted list of the column names present in the target table pt but
not in the reference table tt, the model of
`sorted(prod_col_names - test_col_names)` in _compute_diff. -/
def orphanList (tt pt : TableSchema) : List String :=
  sortStrings (dedupKeepFirst []
    ((colNames pt).filter (fun n => !(elemBy n (colNames tt)))))

/-- Reference columns of tt whose name is absent from the target table
pt, in reference column order, the model of the `missing` list in
_compute_diff. -/
def missingList (tt pt : TableSchema) : List ColumnSchema :=
  tt.columns.filter (fun c => !(elemBy c.name (colNames pt)))

/-- One iteration of the first loop of _compute_diff in runner.py,
processing one reference table: append to new_tables when the name is
absent from the target, otherwise record nonempty orphan and missing
column lists under the table name. -/
def diffStep (prodTables : List TableSchema) (acc : SchemaDiff) (t : TableSchema) :
    SchemaDiff :=
  match findTable prodTables t.name with
  | none => { acc with new_tables := acc.new_tables ++ [t] }
  | some pt =>
    let extra := orphanList t pt
    let miss := missingList t pt
    let acc1 :=
      if extra.isEmpty then acc
      else { acc with orphan_columns := setAssoc acc.orphan_columns t.name extra }
    if miss.isEmpty then acc1
    else { acc1 with missing_columns := appendAssoc acc1.missing_columns t.name miss }

/-- One iteration of the second loop of _compute_diff: append a target
table to missing_tables when its name is absent from the reference. -/
def missingStep (testTables : List TableSchema) (acc : SchemaDiff) (t : TableSchema) :
    SchemaDiff :=
  if containsName testTables t.name then acc
  else { acc with missing_tables := acc.missing_tables ++ [t] }

/-- Embedding of _compute_diff from runner.py: fold the first loop
over the reference snapshot, then the second loop over the target
snapshot, starting from an all-empty diff. -/
def computeDiff (test prod : SchemaSnapshot) : SchemaDiff :=
  let d1 := test.tables.foldl (diffStep prod.tables) ⟨[], [], [], []⟩
  prod.tables.foldl (missingStep test.tables) d1

/-- The orphan-columns entry contributed by one reference table, used
to characterise the fold in diffStep. -/
def orphanEntry (prodTables : List TableSchema) (t : TableSchema) :
    Option (String × List String) :=
  match findTable prodTables t.name with
  | none => none
  | some pt =>
    if (orphanList t pt).isEmpty then none else some (t.name, orphanList t pt)

/-- The missing-columns entry contributed by one reference table. -/
def missingEntry (prodTables : List TableSchema) (t : TableSchema) :
    Option (String × List ColumnSchema) :=
  match findTable prodTables t.name with
  | none => none
  | some pt =>
    if (missingList t pt).isEmpty then none else some (t.name, missingList t pt)

theorem elemBy_iff {α : Type} [DecidableEq α] (a : α) (l : List α) :
    elemBy a l = true ↔ a ∈ l := by
  induction l with
  | nil => simp [elemBy]
  | cons x xs ih =>
    rw [elemBy]
    by_cases h : x = a
    · subst h; simp
    · simp only [if_neg h, ih, List.mem_cons]
      constructor
      · exact fun hh => Or.inr hh
      · rintro (hh | hh)
        · exact absurd hh.symm h
        · exact hh

theorem findTable_some_name {l : List TableSchema} {n : String} {t : TableSchema}
    (h : findTable l n = some t) : t.name = n := by
  induction l with
  | nil => simp [findTable] at h
  | cons x xs ih =>
    by_cases hx : x.name = n
    · simp [findTable, hx] at h
      rw [← h]; exact hx
    · simp [findTable, hx] at h
      exact ih h

theorem findTable_some_mem {l : List TableSchema} {n : String} {t : TableSchema}
    (h : findTable l n = some t) : t ∈ l := by
  induction l with
  | nil => simp [findTable] at h
  | cons x xs ih =>
    by_cases hx : x.name = n
    · simp [findTable, hx] at h
      simp [← h]
    · simp [findTable, hx] at h
      exact List.mem_cons_of_mem x (ih h)

theorem containsName_of_mem {l : List TableSchema} {t : TableSchema} (h : t ∈ l) :
    containsName l t.name = true := by
  induction l with
  | nil => simp at h
  | cons x xs ih =>
    rcases List.mem_cons.mp h with h1 | h1
    · subst h1; simp [containsName, findTable]
    · by_cases hx : x.name = t.name
      · simp [containsName, findTable, hx]
      · simp [containsName, findTable, hx]
        simpa [containsName] using ih h1

theorem findTable_none_of_not_mem {l : List TableSchema} {n : String}
    (h : n ∉ l.map TableSchema.name) : findTable l n = none := by
  induction l with
  | nil => rfl
  | cons x xs ih =>
    rw [List.map_cons] at h
    simp only [List.mem_cons, not_or] at h
    rw [findTable, if_neg (fun hh => h.1 hh.symm)]
    exact ih h.2

theorem mem_insertSorted (a b : String) (l : List String) :
    b ∈ insertSorted a l ↔ b = a ∨ b ∈ l := by
  induction l with
  | nil => simp [insertSorted]
  | cons y ys ih =>
    by_cases h : a ≤ y
    · simp [insertSorted, h]
    · simp [insertSorted, h, ih]
      tauto

theorem sorted_insertSorted (a : String) (l : List String)
    (h : l.Sorted (· ≤ ·)) : (insertSorted a l).Sorted (· ≤ ·) := by
  induction l with
  | nil => simp [insertSorted]
  | cons y ys ih =>
    rw [List.sorted_cons] at h
    by_cases hle : a ≤ y
    · rw [insertSorted, if_pos hle, List.sorted_cons]
      refine ⟨?_, ?_⟩
      · intro b hb
        rcases List.mem_cons.mp hb with h1 | h1
        · subst h1; exact hle
        · exact le_trans hle (h.1 b h1)
      · rw [List.sorted_cons]; exact h
    · rw [insertSorted, if_neg hle, List.sorted_cons]
      refine ⟨?_, ih h.2⟩
      intro b hb
      rcases (mem_insertSorted a b ys).mp hb with h1 | h1
      · subst h1; exact le_of_not_le hle
      · exact h.1 b h1

theorem nodup_insertSorted (a : String) (l : List String)
    (ha : a ∉ l) (h : l.Nodup) : (insertSorted a l).Nodup := by
  induction l with
  | nil => simp [insertSorted]
  | cons y ys ih =>
    simp at ha
    rw [List.nodup_cons] at h
    by_cases hle : a ≤ y
    · rw [insertSorted, if_pos hle, List.nodup_cons, List.nodup_cons]
      exact ⟨by simp [ha.1, ha.2], h⟩
    · rw [insertSorted, if_neg hle, List.nodup_cons]
      refine ⟨?_, ih ha.2 h.2⟩
      intro hy
      rcases (mem_insertSorted a y ys).mp hy with h1 | h1
      · exact ha.1 h1.symm
      · exact h.1 h1

theorem mem_sortStrings (b : String) (l : List String) :
    b ∈ sortStrings l ↔ b ∈ l := by
  induction l with
  | nil => simp [sortStrings]
  | cons x xs ih =>
    show b ∈ insertSorted x (sortStrings xs) ↔ _
    rw [mem_insertSorted]
    simp [ih]

theorem sorted_sortStrings (l : List String) : (sortStrings l).Sorted (· ≤ ·) := by
  induction l with
  | nil => simp [sortStrings]
  | cons x xs ih => exact sorted_insertSorted x (sortStrings xs) ih

theorem nodup_sortStrings (l : List String) (h : l.Nodup) :
    (sortStrings l).Nodup := by
  induction l with
  | nil => simp [sortStrings]
  | cons x xs ih =>
    rw [List.nodup_cons] at h
    exact nodup_insertSorted x (sortStrings xs)
      (fun hx => h.1 ((mem_sortStrings x xs).mp hx)) (ih h.2)

theorem mem_dedupKeepFirst {α : Type} [DecidableEq α] (b : α) :
    ∀ (seen l : List α), b ∈ dedupKeepFirst seen l ↔ b ∈ l ∧ b ∉ seen := by
  intro seen l
  induction l generalizing seen with
  | nil => simp [dedupKeepFirst]
  | cons x xs ih =>
    by_cases hx : elemBy x seen
    · rw [dedupKeepFirst, if_pos hx, ih]
      have hxs : x ∈ seen := (elemBy_iff x seen).mp hx
      constructor
      · rintro ⟨h1, h2⟩; exact ⟨List.mem_cons_of_mem x h1, h2⟩
      · rintro ⟨h1, h2⟩
        rcases List.mem_cons.mp h1 with h3 | h3
        · exact absurd (h3 ▸ hxs) h2
        · exact ⟨h3, h2⟩
    · rw [dedupKeepFirst, if_neg hx]
      have hxs : x ∉ seen := fun hc => hx ((elemBy_iff x seen).mpr hc)
      by_cases hbx : b = x
      · subst hbx
        simp [hxs]
      · simp only [List.mem_cons, hbx, false_or]
        rw [ih]
        simp [hbx, hxs]

theorem nodup_dedupKeepFirst {α : Type} [DecidableEq α] :
    ∀ (seen l : List α), (dedupKeepFirst seen l).Nodup := by
  intro seen l
  induction l generalizing seen with
  | nil => simp [dedupKeepFirst]
  | cons x xs ih =>
    by_cases hx : elemBy x seen
    · rw [dedupKeepFirst, if_pos hx]; exact ih seen
    · rw [dedupKeepFirst, if_neg hx, List.nodup_cons]
      refine ⟨?_, ih (x :: seen)⟩
      intro hc
      exact ((mem_dedupKeepFirst x (x :: seen) xs).mp hc).2 (List.mem_cons_self x seen)

theorem lookupAssoc_isSome_append {β : Type} (l1 l2 : List (String × β)) (k : String) :
    (lookupAssoc (l1 ++ l2) k).isSome = true
      ↔ (lookupAssoc l1 k).isSome = true ∨ (lookupAssoc l2 k).isSome = true := by
  induction l1 with
  | nil => simp [lookupAssoc]
  | cons p ps ih =>
    by_cases h : p.1 = k
    · simp [lookupAssoc, h]
    · simp [lookupAssoc, h, ih]

theorem setAssoc_of_lookup_none {β : Type} (l : List (String × β)) (k : String) (v : β)
    (h : lookupAssoc l k = none) : setAssoc l k v = l ++ [(k, v)] := by
  induction l with
  | nil => rfl
  | cons p ps ih =>
    by_cases hp : p.1 = k
    · rw [lookupAssoc, if_pos hp] at h
      exact absurd h (by simp)
    · rw [lookupAssoc, if_neg hp] at h
      rw [setAssoc, if_neg hp, ih h]
      rfl

theorem appendAssoc_of_lookup_none {β : Type} (l : List (String × List β)) (k : String)
    (vs : List β) (h : lookupAssoc l k = none) : appendAssoc l k vs = l ++ [(k, vs)] := by
  induction l with
  | nil => rfl
  | cons p ps ih =>
    by_cases hp : p.1 = k
    · rw [lookupAssoc, if_pos hp] at h
      exact absurd h (by simp)
    · rw [lookupAssoc, if_neg hp] at h
      rw [appendAssoc, if_neg hp, ih h]
      rfl

theorem orphanEntry_key {p : List TableSchema} {t : TableSchema}
    {pr : String × List String} (h : orphanEntry p t = some pr) : pr.1 = t.name := by
  unfold orphanEntry at h
  cases hf : findTable p t.name with
  | none => simp [hf] at h
  | some pt =>
    simp only [hf] at h
    cases he : (orphanList t pt).isEmpty with
    | true => simp [he] at h
    | false =>
      simp only [he] at h
      simp at h
      rw [← h]

theorem missingEntry_key {p : List TableSchema} {t : TableSchema}
    {pr : String × List ColumnSchema} (h : missingEntry p t = some pr) :
    pr.1 = t.name := by
  unfold missingEntry at h
  cases hf : findTable p t.name with
  | none => simp [hf] at h
  | some pt =>
    simp only [hf] at h
    cases he : (missingList t pt).isEmpty with
    | true => simp [he] at h
    | false =>
      simp only [he] at h
      simp at h
      rw [← h]

theorem diffStep_new_tables (p : List TableSchema) (acc : SchemaDiff) (t : TableSchema) :
    (diffStep p acc t).new_tables
      = acc.new_tables ++ (if containsName p t.name then [] else [t]) := by
  rw [diffStep]
  cases h : findTable p t.name with
  | none => simp [containsName, h]
  | some pt =>
    simp only [containsName, h, Option.isSome_some, if_true]
    split <;> split <;> simp

theorem diffStep_missing_tables (p : List TableSchema) (acc : SchemaDiff)
    (t : TableSchema) : (diffStep p acc t).missing_tables = acc.missing_tables := by
  cases h : findTable p t.name with
  | none => simp [diffStep, h]
  | some pt =>
    simp only [diffStep, h]
    split <;> split <;> rfl

theorem diffStep_orphan (p : List TableSchema) (acc : SchemaDiff) (t : TableSchema) :
    (diffStep p acc t).orphan_columns
      = match orphanEntry p t with
        | none => acc.orphan_columns
        | some pr => setAssoc acc.orphan_columns pr.1 pr.2 := by
  rw [diffStep, orphanEntry]
  cases h : findTable p t.name with
  | none => rfl
  | some pt =>
    by_cases he : (orphanList t pt).isEmpty
    · simp only [if_pos he]
      split <;> rfl
    · simp only [if_neg he]
      split <;> rfl

theorem diffStep_missing_columns (p : List TableSchema) (acc : SchemaDiff)
    (t : TableSchema) :
    (diffStep p acc t).missing_columns
      = match missingEntry p t with
        | none => acc.missing_columns
        | some pr => appendAssoc acc.missing_columns pr.1 pr.2 := by
  rw [diffStep, missingEntry]
  cases h : findTable p t.name with
  | none => rfl
  | some pt =>
    by_cases hm : (missingList t pt).isEmpty
    · simp only [if_pos hm]
      split <;> rfl
    · simp only [if_neg hm]
      split <;> rfl

theorem foldl_diffStep_new (p : List TableSchema) (l : List TableSchema)
    (acc : SchemaDiff) :
    (l.foldl (diffStep p) acc).new_tables
      = acc.new_tables ++ l.filter (fun t => !(containsName p t.name)) := by
  induction l generalizing acc with
  | nil => simp
  | cons t ts ih =>
    rw [List.foldl_cons, ih, diffStep_new_tables]
    by_cases h : containsName p t.name
    · simp [h]
    · simp [h]

theorem foldl_diffStep_missing_tables (p : List TableSchema) (l : List TableSchema)
    (acc : SchemaDiff) :
    (l.foldl (diffStep p) acc).missing_tables = acc.missing_tables := by
  induction l generalizing acc with
  | nil => rfl
  | cons t ts ih => rw [List.foldl_cons, ih, diffStep_missing_tables]

theorem foldl_diffStep_orphan (p : List TableSchema) (l : List TableSchema)
    (acc : SchemaDiff) (hnd : (l.map TableSchema.name).Nodup)
    (hfresh : ∀ k, (lookupAssoc acc.orphan_columns k).isSome = true
        → k ∉ l.map TableSchema.name) :
    (l.foldl (diffStep p) acc).orphan_columns
      = acc.orphan_columns ++ l.filterMap (orphanEntry p) := by
  induction l generalizing acc with
  | nil => simp
  | cons t ts ih =>
    rw [List.map_cons, List.nodup_cons] at hnd
    rw [List.foldl_cons]
    cases he : orphanEntry p t with
    | none =>
      have hstep : (diffStep p acc t).orphan_columns = acc.orphan_columns := by
        rw [diffStep_orphan, he]
      rw [ih (diffStep p acc t) hnd.2 ?_, hstep, List.filterMap_cons, he]
      intro k hk
      rw [hstep] at hk
      exact fun hmem => hfresh k hk (List.mem_cons_of_mem _ hmem)
    | some pr =>
      rcases pr with ⟨k0, L⟩
      have hkey : k0 = t.name := orphanEntry_key he
      subst hkey
      have hnone : lookupAssoc acc.orphan_columns t.name = none := by
        rcases hl : lookupAssoc acc.orphan_columns t.name with _ | v
        · rfl
        · exact absurd (List.mem_cons_self t.name _)
            (hfresh t.name (by rw [hl]; rfl))
      have hstep : (diffStep p acc t).orphan_columns
          = acc.orphan_columns ++ [(t.name, L)] := by
        rw [diffStep_orphan, he]
        exact setAssoc_of_lookup_none _ _ _ hnone
      have hfresh2 : ∀ k, (lookupAssoc (diffStep p acc t).orphan_columns k).isSome = true
          → k ∉ ts.map TableSchema.name := by
        intro k hk
        rw [hstep, lookupAssoc_isSome_append] at hk
        rcases hk with hk | hk
        · exact fun hmem => hfresh k hk (List.mem_cons_of_mem _ hmem)
        · have hkn : k = t.name := by
            by_cases hkt : t.name = k
            · exact hkt.symm
            · rw [lookupAssoc, if_neg hkt] at hk
              simp [lookupAssoc] at hk
          rw [hkn]
          exact hnd.1
      rw [ih (diffStep p acc t) hnd.2 hfresh2, hstep, List.filterMap_cons, he,
        List.append_assoc, List.singleton_append]

theorem foldl_diffStep_missing_columns (p : List TableSchema) (l : List TableSchema)
    (acc : SchemaDiff) (hnd : (l.map TableSchema.name).Nodup)
    (hfresh : ∀ k, (lookupAssoc acc.missing_columns k).isSome = true
        → k ∉ l.map TableSchema.name) :
    (l.foldl (diffStep p) acc).missing_columns
      = acc.missing_columns ++ l.filterMap (missingEntry p) := by
  induction l generalizing acc with
  | nil => simp
  | cons t ts ih =>
    rw [List.map_cons, List.nodup_cons] at hnd
    rw [List.foldl_cons]
    cases he : missingEntry p t with
    | none =>
      have hstep : (diffStep p acc t).missing_columns = acc.missing_columns := by
        rw [diffStep_missing_columns, he]
      rw [ih (diffStep p acc t) hnd.2 ?_, hstep, List.filterMap_cons, he]
      intro k hk
      rw [hstep] at hk
      exact fun hmem => hfresh k hk (List.mem_cons_of_mem _ hmem)
    | some pr =>
      rcases pr with ⟨k0, L⟩
      have hkey : k0 = t.name := missingEntry_key he
      subst hkey
      have hnone : lookupAssoc acc.missing_columns t.name = none := by
        rcases hl : lookupAssoc acc.missing_columns t.name with _ | v
        · rfl
        · exact absurd (List.mem_cons_self t.name _)
            (hfresh t.name (by rw [hl]; rfl))
      have hstep : (diffStep p acc t).missing_columns
          = acc.missing_columns ++ [(t.name, L)] := by
        rw [diffStep_missing_columns, he]
        exact appendAssoc_of_lookup_none _ _ _ hnone
      have hfresh2 : ∀ k, (lookupAssoc (diffStep p acc t).missing_columns k).isSome = true
          → k ∉ ts.map TableSchema.name := by
        intro k hk
        rw [hstep, lookupAssoc_isSome_append] at hk
        rcases hk with hk | hk
        · exact fun hmem => hfresh k hk (List.mem_cons_of_mem _ hmem)
        · have hkn : k = t.name := by
            by_cases hkt : t.name = k
            · exact hkt.symm
            · rw [lookupAssoc, if_neg hkt] at hk
              simp [lookupAssoc] at hk
          rw [hkn]
          exact hnd.1
      rw [ih (diffStep p acc t) hnd.2 hfresh2, hstep, List.filterMap_cons, he,
        List.append_assoc, List.singleton_append]

theorem missingStep_missing_tables (ts : List TableSchema) (acc : SchemaDiff)
    (t : TableSchema) :
    (missingStep ts acc t).missing_tables
      = acc.missing_tables ++ (if containsName ts t.name then [] else [t]) := by
  rw [missingStep]
  split <;> simp_all

theorem missingStep_others (ts : List TableSchema) (acc : SchemaDiff) (t : TableSchema) :
    (missingStep ts acc t).new_tables = acc.new_tables
      ∧ (missingStep ts acc t).orphan_columns = acc.orphan_columns
      ∧ (missingStep ts acc t).missing_columns = acc.missing_columns := by
  rw [missingStep]
  split <;> simp

theorem foldl_missingStep_missing (ts : List TableSchema) (l : List TableSchema)
    (acc : SchemaDiff) :
    (l.foldl (missingStep ts) acc).missing_tables
      = acc.missing_tables ++ l.filter (fun t => !(containsName ts t.name)) := by
  induction l generalizing acc with
  | nil => simp
  | cons t tl ih =>
    rw [List.foldl_cons, ih, missingStep_missing_tables]
    by_cases h : containsName ts t.name
    · simp [h]
    · simp [h]

theorem foldl_missingStep_others (ts : List TableSchema) (l : List TableSchema)
    (acc : SchemaDiff) :
    (l.foldl (missingStep ts) acc).new_tables = acc.new_tables
      ∧ (l.foldl (missingStep ts) acc).orphan_columns = acc.orphan_columns
      ∧ (l.foldl (missingStep ts) acc).missing_columns = acc.missing_columns := by
  induction l generalizing acc with
  | nil => exact ⟨rfl, rfl, rfl⟩
  | cons t tl ih =>
    rw [List.foldl_cons]
    rcases ih (missingStep ts acc t) with ⟨h1, h2, h3⟩
    rcases missingStep_others ts acc t with ⟨g1, g2, g3⟩
    exact ⟨h1.trans g1, h2.trans g2, h3.trans g3⟩

theorem isEmpty_true_iff {α : Type} (l : List α) : l.isEmpty = true ↔ l = [] := by
  cases l <;> simp

theorem lookupAssoc_filterMap_none {β : Type} (f : TableSchema → Option (String × β))
    (hf : ∀ t pr, f t = some pr → pr.1 = t.name) :
    ∀ (l : List TableSchema) (n : String), n ∉ l.map TableSchema.name →
      lookupAssoc (l.filterMap f) n = none := by
  intro l
  induction l with
  | nil => intro n _; rfl
  | cons t ts ih =>
    intro n h
    rw [List.map_cons] at h
    simp only [List.mem_cons, not_or] at h
    rw [List.filterMap_cons]
    cases hft : f t with
    | none => exact ih n h.2
    | some pr =>
      have hkey : pr.1 = t.name := hf t pr hft
      rw [lookupAssoc, if_neg (fun hh => h.1 (by rw [← hh, hkey]))]
      exact ih n h.2

theorem lookupAssoc_filterMap {β : Type} (f : TableSchema → Option (String × β))
    (hf : ∀ t pr, f t = some pr → pr.1 = t.name) :
    ∀ (l : List TableSchema) (n : String) (tt : TableSchema),
      (l.map TableSchema.name).Nodup → findTable l n = some tt →
      lookupAssoc (l.filterMap f) n = (f tt).map Prod.snd := by
  intro l
  induction l with
  | nil => intro n tt _ h; simp [findTable] at h
  | cons t ts ih =>
    intro n tt hnd hft
    rw [List.map_cons, List.nodup_cons] at hnd
    rw [List.filterMap_cons]
    by_cases hn : t.name = n
    · rw [findTable, if_pos hn] at hft
      have htt : t = tt := by injection hft
      subst htt
      cases hfe : f t with
      | none =>
        rw [lookupAssoc_filterMap_none f hf ts n (by rw [← hn]; exact hnd.1)]
        rfl
      | some pr =>
        have hkey : pr.1 = t.name := hf t pr hfe
        rw [lookupAssoc, if_pos (by rw [hkey]; exact hn)]
        rfl
    · rw [findTable, if_neg hn] at hft
      cases hfe : f t with
      | none => exact ih n tt hnd.2 hft
      | some pr =>
        have hkey : pr.1 = t.name := hf t pr hfe
        rw [lookupAssoc, if_neg (by rw [hkey]; exact hn)]
        exact ih n tt hnd.2 hft

theorem computeDiff_orphan (R P : SchemaSnapshot) :
    (computeDiff R P).orphan_columns = R.tables.filterMap (orphanEntry P.tables) := by
  unfold computeDiff
  rw [(foldl_missingStep_others R.tables P.tables _).2.1]
  rw [foldl_diffStep_orphan P.tables R.tables ⟨[], [], [], []⟩ R.nodup_names
    (fun k hk => by simp [lookupAssoc] at hk)]
  rfl

theorem computeDiff_missing_columns (R P : SchemaSnapshot) :
    (computeDiff R P).missing_columns = R.tables.filterMap (missingEntry P.tables) := by
  unfold computeDiff
  rw [(foldl_missingStep_others R.tables P.tables _).2.2]
  rw [foldl_diffStep_missing_columns P.tables R.tables ⟨[], [], [], []⟩ R.nodup_names
    (fun k hk => by simp [lookupAssoc] at hk)]
  rfl

theorem computeDiff_new (R P : SchemaSnapshot) :
    (computeDiff R P).new_tables
      = R.tables.filter (fun t => !(containsName P.tables t.name)) := by
  unfold computeDiff
  rw [(foldl_missingStep_others R.tables P.tables _).1]
  rw [foldl_diffStep_new]
  rfl

theorem computeDiff_missing_tables (R P : SchemaSnapshot) :
    (computeDiff R P).missing_tables
      = P.tables.filter (fun t => !(containsName R.tables t.name)) := by
  unfold computeDiff
  rw [foldl_missingStep_missing, foldl_diffStep_missing_tables]
  rfl

theorem mem_orphanList (tt pt : TableSchema) (s : String) :
    s ∈ orphanList tt pt ↔ s ∈ colNames pt ∧ s ∉ colNames tt := by
  unfold orphanList
  rw [mem_sortStrings, mem_dedupKeepFirst]
  simp only [List.not_mem_nil, not_false_iff, and_true, List.mem_filter]
  constructor
  · rintro ⟨h1, h2⟩
    refine ⟨h1, fun hc => ?_⟩
    rw [(elemBy_iff s (colNames tt)).mpr hc] at h2
    simp at h2
  · rintro ⟨h1, h2⟩
    refine ⟨h1, ?_⟩
    cases he : elemBy s (colNames tt)
    · rfl
    · exact absurd ((elemBy_iff s (colNames tt)).mp he) h2

theorem orphanEntry_some_elim {p : List TableSchema} {t : TableSchema}
    {pr : String × List String} (h : orphanEntry p t = some pr) :
    ∃ pt, findTable p t.name = some pt ∧ pr.1 = t.name
      ∧ pr.2 = orphanList t pt ∧ (orphanList t pt).isEmpty = false := by
  unfold orphanEntry at h
  cases hf : findTable p t.name with
  | none => simp [hf] at h
  | some pt =>
    simp only [hf] at h
    cases he : (orphanList t pt).isEmpty with
    | true => simp [he] at h
    | false =>
      simp only [he] at h
      simp at h
      refine ⟨pt, rfl, ?_, ?_, he⟩ <;> rw [← h]

theorem missingEntry_some_elim {p : List TableSchema} {t : TableSchema}
    {pr : String × List ColumnSchema} (h : missingEntry p t = some pr) :
    ∃ pt, findTable p t.name = some pt ∧ pr.1 = t.name
      ∧ pr.2 = missingList t pt ∧ (missingList t pt).isEmpty = false := by
  unfold missingEntry at h
  cases hf : findTable p t.name with
  | none => simp [hf] at h
  | some pt =>
    simp only [hf] at h
    cases he : (missingList t pt).isEmpty with
    | true => simp [he] at h
    | false =>
      simp only [he] at h
      simp at h
      refine ⟨pt, rfl, ?_, ?_, he⟩ <;> rw [← h]

/-- Claim C2: for any two snapshots and any table name present in
both, the orphan-columns value for that table, read with empty-list
default as a Python dict would be read, holds exactly the column names
present in the target table but not in the reference table, sorted and
without duplicates; and the missing-columns value holds exactly the
reference Column records whose names are absent from the target table,
in reference column order. -/
theorem compute_diff_columns_spec (R P : SchemaSnapshot) (n : String)
    (tt pt : TableSchema) (hR : findTable R.tables n = some tt)
    (hP : findTable P.tables n = some pt) :
    (∀ s, s ∈ (lookupAssoc (computeDiff R P).orphan_columns n).getD []
        ↔ s ∈ colNames pt ∧ s ∉ colNames tt)
      ∧ ((lookupAssoc (computeDiff R P).orphan_columns n).getD []).Sorted (· ≤ ·)
      ∧ ((lookupAssoc (computeDiff R P).orphan_columns n).getD []).Nodup
      ∧ (lookupAssoc (computeDiff R P).missing_columns n).getD []
          = tt.columns.filter (fun c => !(elemBy c.name (colNames pt))) := by
  have hna : tt.name = n := findTable_some_name hR
  have hPn : findTable P.tables tt.name = some pt := by rw [hna]; exact hP
  have horo : lookupAssoc (computeDiff R P).orphan_columns n
      = (orphanEntry P.tables tt).map Prod.snd := by
    rw [computeDiff_orphan]
    exact lookupAssoc_filterMap _ (fun t pr h => orphanEntry_key h)
      R.tables n tt R.nodup_names hR
  have hmis : lookupAssoc (computeDiff R P).missing_columns n
      = (missingEntry P.tables tt).map Prod.snd := by
    rw [computeDiff_missing_columns]
    exact lookupAssoc_filterMap _ (fun t pr h => missingEntry_key h)
      R.tables n tt R.nodup_names hR
  have hoe : orphanEntry P.tables tt
      = if (orphanList tt pt).isEmpty then none
        else some (tt.name, orphanList tt pt) := by
    unfold orphanEntry
    rw [hPn]
  have hme : missingEntry P.tables tt
      = if (missingList tt pt).isEmpty then none
        else some (tt.name, missingList tt pt) := by
    unfold missingEntry
    rw [hPn]
  refine ⟨?_, ?_, ?_, ?_⟩
  · intro s
    rw [horo, hoe]
    by_cases he : (orphanList tt pt).isEmpty
    · rw [if_pos he]
      have hempty : orphanList tt pt = [] := (isEmpty_true_iff _).mp he
      simp only [Option.map_none', Option.getD_none, List.not_mem_nil, false_iff]
      rw [← mem_orphanList tt pt s, hempty]
      simp
    · rw [if_neg he]
      simp only [Option.map_some', Option.getD_some]
      exact mem_orphanList tt pt s
  · rw [horo, hoe]
    by_cases he : (orphanList tt pt).isEmpty
    · rw [if_pos he]; simp
    · rw [if_neg he]
      simp only [Option.map_some', Option.getD_some]
      exact sorted_sortStrings _
  · rw [horo, hoe]
    by_cases he : (orphanList tt pt).isEmpty
    · rw [if_pos he]; simp
    · rw [if_neg he]
      simp only [Option.map_some', Option.getD_some]
      exact nodup_sortStrings _ (nodup_dedupKeepFirst _ _)
  · rw [hmis, hme]
    by_cases he : (missingList tt pt).isEmpty
    · rw [if_pos he]
      have hempty : missingList tt pt = [] := (isEmpty_true_iff _).mp he
      simp only [Option.map_none', Option.getD_none]
      exact hempty.symm
    · rw [if_neg he]
      simp only [Option.map_some', Option.getD_some]
      rfl

/-- Claim C3: new_tables holds exactly the reference tables whose
names are absent from the target, missing_tables exactly the target
tables whose names are absent from the reference, and the completeness
invariant follows: every reference table is in new_tables or has its
name in the target, and every missing table is a target table whose
name is absent from the reference. -/
theorem compute_diff_tables_spec (R P : SchemaSnapshot) :
    (computeDiff R P).new_tables
        = R.tables.filter (fun t => !(containsName P.tables t.name))
      ∧ (computeDiff R P).missing_tables
        = P.tables.filter (fun t => !(containsName R.tables t.name))
      ∧ (∀ t, t ∈ R.tables →
          t ∈ (computeDiff R P).new_tables ∨ containsName P.tables t.name = true)
      ∧ (∀ t, t ∈ (computeDiff R P).missing_tables →
          t ∈ P.tables ∧ containsName R.tables t.name = false) := by
  refine ⟨computeDiff_new R P, computeDiff_missing_tables R P, ?_, ?_⟩
  · intro t ht
    by_cases hc : containsName P.tables t.name
    · exact Or.inr hc
    · left
      rw [computeDiff_new]
      exact List.mem_filter.mpr ⟨ht, by simp [hc]⟩
  · intro t ht
    rw [computeDiff_missing_tables] at ht
    have hm := List.mem_filter.mp ht
    exact ⟨hm.1, by simpa using hm.2⟩

/-- Claim C10: every entry of orphan_columns and of missing_columns is
keyed by a table name present in both snapshots and maps to a
non-empty list; a common table with no column difference in the
corresponding direction produces no entry at all. -/
theorem compute_diff_entries_nonempty (R P : SchemaSnapshot) :
    (∀ k L, (k, L) ∈ (computeDiff R P).orphan_columns →
        containsName R.tables k = true ∧ containsName P.tables k = true ∧ L ≠ [])
      ∧ (∀ k L, (k, L) ∈ (computeDiff R P).missing_columns →
        containsName R.tables k = true ∧ containsName P.tables k = true ∧ L ≠ []) := by
  constructor
  · intro k L hmem
    rw [computeDiff_orphan] at hmem
    rcases List.mem_filterMap.mp hmem with ⟨t, htmem, hentry⟩
    rcases orphanEntry_some_elim hentry with ⟨pt, hfind, hk, hL, hne⟩
    have hkt : k = t.name := hk
    subst hkt
    refine ⟨containsName_of_mem htmem, by rw [containsName, hfind]; rfl, ?_⟩
    intro hnil
    have : L = orphanList t pt := hL
    rw [this] at hnil
    rw [hnil] at hne
    simp at hne
  · intro k L hmem
    rw [computeDiff_missing_columns] at hmem
    rcases List.mem_filterMap.mp hmem with ⟨t, htmem, hentry⟩
    rcases missingEntry_some_elim hentry with ⟨pt, hfind, hk, hL, hne⟩
    have hkt : k = t.name := hk
    subst hkt
    refine ⟨containsName_of_mem htmem, by rw [containsName, hfind]; rfl, ?_⟩
    intro hnil
    have : L = missingList t pt := hL
    rw [this] at hnil
    rw [hnil] at hne
    simp at hne

/-- Reference side of a small concrete example: table users with
columns id and name. -/
def tUsersRef : TableSchema :=
  ⟨"users", [⟨"id", "integer", false, none⟩, ⟨"name", "text", true, none⟩], ["id"]⟩

/-- Target side of a small concrete example: table users with columns
id and email. -/
def tUsersTgt : TableSchema :=
  ⟨"users", [⟨"id", "integer", false, none⟩, ⟨"email", "text", true, none⟩], ["id"]⟩

/-- Reference snapshot holding only the users table. -/
def snapRef : SchemaSnapshot := ⟨[tUsersRef], by decide⟩

/-- Target snapshot holding only the users table. -/
def snapTgt : SchemaSnapshot := ⟨[tUsersTgt], by decide⟩

/-- Witness for claim C2 at a concrete pair of snapshots. -/
theorem compute_diff_columns_spec_witness :
    "email" ∈ (lookupAssoc (computeDiff snapRef snapTgt).orphan_columns "users").getD []
      ↔ "email" ∈ colNames tUsersTgt ∧ "email" ∉ colNames tUsersRef :=
  (compute_diff_columns_spec snapRef snapTgt "users" tUsersRef tUsersTgt
    (by decide) (by decide)).1 "email"

/-- Witness for claim C3 at a concrete pair of snapshots. -/
theorem compute_diff_tables_spec_witness :
    tUsersRef ∈ (computeDiff snapRef snapTgt).new_tables
      ∨ containsName snapTgt.tables tUsersRef.name = true :=
  (compute_diff_tables_spec snapRef snapTgt).2.2.1 tUsersRef (by decide)

/-- Witness for claim C10 at a concrete pair of snapshots. -/
theorem compute_diff_entries_nonempty_witness :
    containsName snapRef.tables "users" = true
      ∧ containsName snapTgt.tables "users" = true
      ∧ (["email"] : List String) ≠ [] :=
  (compute_diff_entries_nonempty snapRef snapTgt).1 "users" ["email"] (by decide)

/-- A row as produced by fetch_rows with the dict_row factory: ordered
pairs of column name and value; keys are the selected columns. -/
abbrev Row := List (String × Value)

/-- Model of tuple(row[col] for col in cols): the projection of a row
onto a column list, none when some column is absent from the row
(where Python raises KeyError). -/
def projectRow (row : Row) : List String → Option (List Value)
  | [] => some []
  | c :: cs =>
    match lookupAssoc row c, projectRow row cs with
    | some v, some vs => some (v :: vs)
    | _, _ => none

/-- The three destinations of a reference row in the _sync_data
partition. -/
inductive RowClass where
  | insert
  | update
  | skip
deriving DecidableEq

/-- Outcome of classifying one row: a destination, or the KeyError the
Python projection raises when a needed column is absent. -/
inductive RowOutcome where
  | classified (c : RowClass)
  | keyError
deriving DecidableEq

/-- Embedding of the per-row partition of _sync_data in runner.py: a
row whose sync-key projection is among the target sync-key tuples goes
to existing_rows (UPDATE); otherwise, when the target declares a
primary key, the row projection onto that key is compared with the
target primary-key tuples and a hit is skipped; otherwise the row goes
to missing_rows (INSERT). -/
def classifyRow (syncKey : List String) (prodSyncValues : List (List Value))
    (prodRealPk : List String) (prodRealPkValues : List (List Value))
    (row : Row) : RowOutcome :=
  match projectRow row syncKey with
  | none => RowOutcome.keyError
  | some syncVal =>
    if elemBy syncVal prodSyncValues then RowOutcome.classified RowClass.update
    else if prodRealPk.isEmpty then RowOutcome.classified RowClass.insert
    else
      match projectRow row prodRealPk with
      | none => RowOutcome.keyError
      | some pkVal =>
        if elemBy pkVal prodRealPkValues then RowOutcome.classified RowClass.skip
        else RowOutcome.classified RowClass.insert

/-- Claim C1 (amended): for a reference row whose sync-key projection
is not among the target sync-key tuples, the row is skipped exactly
when the target declares a primary key, every primary-key column is
among the row's columns (shared_columns), and the projection onto that
key is among the target primary-key tuples; the row is classified for
INSERT when the target declares no primary key, or when the key
projection exists and misses the target primary-key tuples; but when
the target declares a primary key containing a column absent from
shared_columns the partition raises KeyError instead of classifying
the row for INSERT. -/
theorem sync_partition_spec (syncKey : List String) (psv : List (List Value))
    (pk : List String) (pkv : List (List Value)) (row : Row) (syncVal : List Value)
    (hproj : projectRow row syncKey = some syncVal)
    (hnot : elemBy syncVal psv = false) :
    (classifyRow syncKey psv pk pkv row = RowOutcome.classified RowClass.skip
        ↔ pk ≠ [] ∧ ∃ pkVal, projectRow row pk = some pkVal ∧ elemBy pkVal pkv = true)
      ∧ (pk = [] → classifyRow syncKey psv pk pkv row
          = RowOutcome.classified RowClass.insert)
      ∧ (∀ pkVal, projectRow row pk = some pkVal → elemBy pkVal pkv = false →
          classifyRow syncKey psv pk pkv row = RowOutcome.classified RowClass.insert)
      ∧ (pk ≠ [] → projectRow row pk = none →
          classifyRow syncKey psv pk pkv row = RowOutcome.keyError) := by
  unfold classifyRow
  rw [hproj]
  simp only [hnot, Bool.false_eq_true, if_false]
  refine ⟨?_, ?_, ?_, ?_⟩
  · cases hpk : pk.isEmpty with
    | true =>
      have : pk = [] := (isEmpty_true_iff pk).mp hpk
      simp [this]
    | false =>
      have hpkne : pk ≠ [] := by
        intro hc
        rw [hc] at hpk
        simp at hpk
      simp only [Bool.false_eq_true, if_false]
      cases hp : projectRow row pk with
      | none => simp [hpkne]
      | some pkVal =>
        by_cases hin : elemBy pkVal pkv = true
        · simp [hin, hpkne]
        · have hin2 : elemBy pkVal pkv = false := by
            cases h2 : elemBy pkVal pkv
            · rfl
            · exact absurd h2 hin
          simp [hin2]
  · intro hpk
    subst hpk
    simp
  · intro pkVal hp hin
    cases hpk : pk.isEmpty with
    | true => simp
    | false =>
      simp only [Bool.false_eq_true, if_false]
      rw [hp]
      simp [hin]
  · intro hpkne hp
    have hpk : pk.isEmpty = false := by
      cases h2 : pk.isEmpty
      · rfl
      · exact absurd ((isEmpty_true_iff pk).mp h2) hpkne
    simp only [hpk, Bool.false_eq_true, if_false]
    rw [hp]

/-- Counterexample to claim C1 as stated: the row (a, 1) under sync
key a, with empty target sync values, target primary key (b) not among
the row columns, and empty target primary-key values.  The claim, as
stated, places this row in the INSERT class (the skip conditions do
not all hold); the code instead evaluates row[b] and raises KeyError,
classifying the row neither for INSERT nor for UPDATE nor skipping
it. -/
theorem sync_partition_counterexample :
    projectRow [("a", Value.int 1)] ["a"] = some [Value.int 1]
      ∧ elemBy [Value.int 1] ([] : List (List Value)) = false
      ∧ projectRow [("a", Value.int 1)] ["b"] = none
      ∧ classifyRow ["a"] [] ["b"] [] [("a", Value.int 1)]
          ≠ RowOutcome.classified RowClass.insert
      ∧ classifyRow ["a"] [] ["b"] [] [("a", Value.int 1)] = RowOutcome.keyError := by
  refine ⟨by decide, by decide, by decide, by decide, by decide⟩

/-- Witness for claim C1 at a concrete skipped row. -/
theorem sync_partition_spec_witness :
    classifyRow ["a"] [] ["id"] [[Value.int 7]]
        [("a", Value.str "x"), ("id", Value.int 7)]
      = RowOutcome.classified RowClass.skip := by
  have h := (sync_partition_spec ["a"] [] ["id"] [[Value.int 7]]
    [("a", Value.str "x"), ("id", Value.int 7)] [Value.str "x"]
    (by decide) (by decide)).1
  exact h.mpr ⟨by decide, [Value.int 7], by decide, by decide⟩

/-- The UPDATE statement update_rows builds: table, SET columns in
order, WHERE columns in order, and per-row parameter tuples (SET
parameters then WHERE parameters, as the code extends row_params). -/
structure UpdateQuery where
  table : String
  setCols : List String
  whereCols : List String
  params : List (List Value)
deriving DecidableEq

/-- Result of update_rows: the issued query (none when the code
returns without touching the database) together with the returned
count, or the KeyError raised when a row lacks a referenced column. -/
inductive UpdateResult where
  | done (query : Option UpdateQuery) (count : Nat)
  | keyError
deriving DecidableEq

/-- The parameter tuple of one row: SET values for the non-key
columns followed by WHERE values for the sync-key columns. -/
def rowParams (updateCols syncKey : List String) (row : Row) : Option (List Value) :=
  match projectRow row updateCols, projectRow row syncKey with
  | some sp, some wp => some (sp ++ wp)
  | _, _ => none

/-- Parameter tuples of all rows, none when any row lacks a needed
column. -/
def rowsParams (updateCols syncKey : List String) : List Row → Option (List (List Value))
  | [] => some []
  | r :: rs =>
    match rowParams updateCols syncKey r, rowsParams updateCols syncKey rs with
    | some p, some ps => some (p :: ps)
    | _, _ => none

/-- Embedding of PostgresInspector.update_rows from database.py:
return 0 with no query when columns, rows or sync_key is empty or when
no column remains outside the sync key; otherwise build the UPDATE
whose SET part covers exactly the non-key columns and whose WHERE part
covers the sync key, and return one attempted update per input row. -/
def updateRows (tableName : String) (syncKey columns : List String)
    (rows : List Row) : UpdateResult :=
  if columns.isEmpty || rows.isEmpty || syncKey.isEmpty then UpdateResult.done none 0
  else
    let updateCols := columns.filter (fun c => !(elemBy c syncKey))
    if updateCols.isEmpty then UpdateResult.done none 0
    else
      match rowsParams updateCols syncKey rows with
      | none => UpdateResult.keyError
      | some params =>
        UpdateResult.done (some ⟨tableName, updateCols, syncKey, params⟩) rows.length

/-- Claim C7 (amended): sync-key columns are never written in the SET
clause and only matched in the WHERE clause; when columns minus
sync_key is empty no query is issued and 0 is returned; the same
happens when sync_key itself is empty (or columns or rows are empty);
and whenever a query is issued the returned count is one per input
row. -/
theorem update_rows_spec (tableName : String) (syncKey columns : List String)
    (rows : List Row) :
    (columns.filter (fun c => !(elemBy c syncKey)) = [] →
        updateRows tableName syncKey columns rows = UpdateResult.done none 0)
      ∧ (syncKey = [] →
        updateRows tableName syncKey columns rows = UpdateResult.done none 0)
      ∧ (∀ q n, updateRows tableName syncKey columns rows
            = UpdateResult.done (some q) n →
          q.setCols = columns.filter (fun c => !(elemBy c syncKey))
            ∧ (∀ c, c ∈ q.setCols → c ∉ syncKey)
            ∧ q.whereCols = syncKey
            ∧ n = rows.length) := by
  refine ⟨?_, ?_, ?_⟩
  · intro hfilter
    unfold updateRows
    by_cases hg : columns.isEmpty || rows.isEmpty || syncKey.isEmpty
    · rw [if_pos hg]
    · rw [if_neg hg]
      simp only [hfilter]
      rfl
  · intro hsk
    subst hsk
    unfold updateRows
    simp
  · intro q n hq
    unfold updateRows at hq
    by_cases hg : columns.isEmpty || rows.isEmpty || syncKey.isEmpty
    · rw [if_pos hg] at hq
      simp at hq
    · rw [if_neg hg] at hq
      by_cases hu : (columns.filter (fun c => !(elemBy c syncKey))).isEmpty
      · simp only [hu, if_true] at hq
        simp at hq
      · simp only [hu, Bool.false_eq_true, if_false] at hq
        cases hp : rowsParams (columns.filter (fun c => !(elemBy c syncKey))) syncKey rows with
        | none => rw [hp] at hq; simp at hq
        | some params =>
          rw [hp] at hq
          simp only [UpdateResult.done.injEq, Option.some.injEq] at hq
          rcases hq with ⟨hq1, hq2⟩
          rw [← hq1]
          refine ⟨rfl, ?_, rfl, hq2.symm⟩
          intro c hc hcmem
          have hcf := List.mem_filter.mp hc
          have : elemBy c syncKey = true := (elemBy_iff c syncKey).mpr hcmem
          rw [this] at hcf
          simp at hcf

/-- Counterexample to claim C7 as stated: with an empty sync key, a
non-empty column list, and one row, columns minus sync_key is
non-empty, so the claim requires a count of one attempted update per
input row; the code instead returns 0 without issuing a query, because
of the `not sync_key` guard. -/
theorem update_rows_counterexample :
    (["a"].filter (fun c => !(elemBy c ([] : List String))) ≠ [])
      ∧ updateRows "t" [] ["a"] [[("a", Value.int 1)]] = UpdateResult.done none 0
      ∧ ([[(("a" : String), Value.int 1)]] : List Row).length = 1 := by
  refine ⟨by decide, by decide, by decide⟩

/-- Witness for claim C7 at a concrete update call. -/
theorem update_rows_spec_witness :
    (["name"] : List String) = ["id", "name"].filter (fun c => !(elemBy c ["id"]))
      ∧ (∀ c, c ∈ (["name"] : List String) → c ∉ (["id"] : List String))
      ∧ (["id"] : List String) = ["id"]
      ∧ 1 = ([[(("id" : String), Value.int 1), (("name" : String), Value.str "x")]] : List Row).length := by
  have h := (update_rows_spec "t" ["id"] ["id", "name"]
    [[("id", Value.int 1), ("name", Value.str "x")]]).2.2
    ⟨"t", ["name"], ["id"], [[Value.str "x", Value.int 1]]⟩ 1 (by decide)
  exact ⟨h.1, h.2.1, h.2.2.1, h.2.2.2⟩

/-- Whether a value counts for SQL COUNT: NULL values are not
counted. -/
def notNull : Value → Bool
  | Value.null => false
  | _ => true

/-- Embedding of PostgresInspector.is_column_unique from database.py
over the multiset of values of the checked column: the SQL result of
COUNT(col) = COUNT(DISTINCT col) AND COUNT(col) > 0, where COUNT(col)
counts non-NULL values and COUNT(DISTINCT col) counts distinct
non-NULL values. -/
def isColumnUnique (values : List Value) : Bool :=
  let nonNull := values.filter notNull
  decide (nonNull.length = (dedupKeepFirst [] nonNull).length)
    && decide (0 < nonNull.length)

theorem dedupKeepFirst_length_le {α : Type} [DecidableEq α] :
    ∀ (seen l : List α), (dedupKeepFirst seen l).length ≤ l.length := by
  intro seen l
  induction l generalizing seen with
  | nil => simp [dedupKeepFirst]
  | cons x xs ih =>
    by_cases hx : elemBy x seen
    · rw [dedupKeepFirst, if_pos hx]
      exact Nat.le_succ_of_le (ih seen)
    · rw [dedupKeepFirst, if_neg hx, List.length_cons, List.length_cons]
      exact Nat.succ_le_succ (ih (x :: seen))

theorem dedupKeepFirst_length_eq_iff {α : Type} [DecidableEq α] :
    ∀ (seen l : List α), (dedupKeepFirst seen l).length = l.length
      ↔ l.Nodup ∧ ∀ x ∈ l, x ∉ seen := by
  intro seen l
  induction l generalizing seen with
  | nil => simp [dedupKeepFirst]
  | cons x xs ih =>
    by_cases hx : elemBy x seen
    · rw [dedupKeepFirst, if_pos hx]
      have hlen : (dedupKeepFirst seen xs).length ≤ xs.length :=
        dedupKeepFirst_length_le seen xs
      have hxseen : x ∈ seen := (elemBy_iff x seen).mp hx
      constructor
      · intro h
        rw [List.length_cons] at h
        omega
      · rintro ⟨-, hall⟩
        exact absurd hxseen (hall x (List.mem_cons_self x xs))
    · rw [dedupKeepFirst, if_neg hx, List.length_cons, List.length_cons]
      have hxseen : x ∉ seen := fun hc => hx ((elemBy_iff x seen).mpr hc)
      rw [Nat.succ_inj]
      rw [ih (x :: seen)]
      constructor
      · rintro ⟨hnd, hall⟩
        have hxxs : x ∉ xs := by
          intro hc
          exact (hall x hc) (List.mem_cons_self x seen)
        refine ⟨List.nodup_cons.mpr ⟨hxxs, hnd⟩, ?_⟩
        intro y hy
        rcases List.mem_cons.mp hy with h1 | h1
        · rw [h1]; exact hxseen
        · intro hc
          exact (hall y h1) (List.mem_cons_of_mem x hc)
      · rintro ⟨hnd, hall⟩
        rw [List.nodup_cons] at hnd
        refine ⟨hnd.2, ?_⟩
        intro y hy hc
        rcases List.mem_cons.mp hc with h1 | h1
        · rw [h1] at hy; exact hnd.1 hy
        · exact (hall y (List.mem_cons_of_mem x hy)) h1

/-- Claim C8 (amended): is_column_unique returns false when the
checked column holds no non-NULL value at all (in particular when
every value is NULL, since NULLs are not counted); in general it
returns true exactly when the non-NULL values are pairwise distinct
and at least one non-NULL value exists, so a NULL value alongside
distinct non-NULL values does not make the column non-unique. -/
theorem is_column_unique_spec (values : List Value) :
    (values.filter notNull = [] → isColumnUnique values = false)
      ∧ (isColumnUnique values = true
          ↔ (values.filter notNull).Nodup ∧ values.filter notNull ≠ []) := by
  constructor
  · intro h
    unfold isColumnUnique
    simp [h]
  · unfold isColumnUnique
    simp only [Bool.and_eq_true, decide_eq_true_eq]
    constructor
    · rintro ⟨h1, h2⟩
      have hnd := (dedupKeepFirst_length_eq_iff [] (values.filter notNull)).mp h1.symm
      refine ⟨hnd.1, ?_⟩
      intro hc
      rw [hc] at h2
      simp at h2
    · rintro ⟨h1, h2⟩
      constructor
      · exact ((dedupKeepFirst_length_eq_iff [] (values.filter notNull)).mpr
          ⟨h1, by simp⟩).symm
      · cases hv : values.filter notNull with
        | nil => exact absurd hv h2
        | cons y ys => simp

/-- Counterexample to claim C8 as stated: a column holding the value 1
and a NULL contains at least one NULL, yet is_column_unique returns
true, because COUNT ignores the NULL: COUNT(col) = 1 =
COUNT(DISTINCT col) and COUNT(col) > 0. -/
theorem is_column_unique_counterexample :
    Value.null ∈ [Value.int 1, Value.null]
      ∧ isColumnUnique [Value.int 1, Value.null] = true := by
  refine ⟨by decide, by decide⟩

/-- Witness for claim C8 on an all-NULL column. -/
theorem is_column_unique_spec_witness :
    isColumnUnique [Value.null, Value.null] = false :=
  (is_column_unique_spec [Value.null, Value.null]).1 (by decide)

/-- An operator decision for a NOT NULL conflict, the model of the
tuples ("drop", None) and ("default", value) stored by
_resolve_not_null_decision. -/
inductive Decision where
  | drop
  | useDefault (v : String)
deriving DecidableEq

/-- The operator-decision memo _not_null_decisions of a
PostgresInspector: insertion-ordered pairs of (table, column) key and
decision, mirroring a Python dict. -/
abbrev Memo := List ((String × String) × Decision)

/-- Memo lookup, the model of `key in self._not_null_decisions` plus
the subsequent dict access. -/
def lookupMemo : Memo → String × String → Option Decision
  | [], _ => none
  | p :: ps, k => if p.1 = k then some p.2 else lookupMemo ps k

/-- Embedding of PostgresInspector._resolve_not_null_decision from
database.py.  The Interaction Port is a function from table and column
to the decision the operator would give; the returned flag records
whether the port was invoked (a prompt was issued).  A memoized key is
answered from the memo without a prompt; otherwise the port is
consulted once and the decision stored. -/
def resolveNotNullDecision (port : String → String → Decision) (memo : Memo)
    (k : String × String) : Decision × Memo × Bool :=
  match lookupMemo memo k with
  | some d => (d, memo, false)
  | none =>
    let d := port k.1 k.2
    (d, memo ++ [(k, d)], true)

/-- Run a sequence of NOT NULL conflicts through the resolver,
threading the memo, and record for each conflict whether a prompt was
issued. -/
def runResolves (port : String → String → Decision) :
    Memo → List (String × String) → List ((String × String) × Bool)
  | _, [] => []
  | memo, k :: ks =>
    let r := resolveNotNullDecision port memo k
    (k, r.2.2) :: runResolves port r.2.1 ks

/-- Number of prompts issued for one (table, column) pair in a trace. -/
def promptCount (trace : List ((String × String) × Bool)) (k : String × String) : Nat :=
  (trace.filter (fun p => p.2 && decide (p.1 = k))).length

theorem lookupMemo_append_of_some (memo : Memo) (j k : String × String)
    (d e : Decision) (h : lookupMemo memo k = some d) :
    lookupMemo (memo ++ [(j, e)]) k = some d := by
  induction memo with
  | nil => simp [lookupMemo] at h
  | cons p ps ih =>
    by_cases hp : p.1 = k
    · rw [lookupMemo, if_pos hp] at h
      rw [List.cons_append, lookupMemo, if_pos hp]
      exact h
    · rw [lookupMemo, if_neg hp] at h
      rw [List.cons_append, lookupMemo, if_neg hp]
      exact ih h

theorem promptCount_cons (p : (String × String) × Bool)
    (tr : List ((String × String) × Bool)) (k : String × String) :
    promptCount (p :: tr) k
      = (if p.2 && decide (p.1 = k) then 1 else 0) + promptCount tr k := by
  unfold promptCount
  rw [List.filter_cons]
  by_cases hp : p.2 && decide (p.1 = k)
  · rw [if_pos hp, if_pos hp, List.length_cons]
    omega
  · rw [if_neg hp]
    simp only [Bool.not_eq_true] at hp
    rw [hp]
    simp

/-- Lookup of the key just appended to a memo that did not hold it. -/
theorem lookupMemo_append_self (memo : Memo) (j : String × String) (e : Decision) :
    lookupMemo (memo ++ [(j, e)]) j = some e ∨ (lookupMemo memo j).isSome = true := by
  induction memo with
  | nil => left; simp [lookupMemo]
  | cons p ps ih =>
    by_cases hp : p.1 = j
    · right
      rw [lookupMemo, if_pos hp]
      rfl
    · rw [List.cons_append, lookupMemo, if_neg hp, lookupMemo, if_neg hp]
      exact ih

theorem promptCount_zero_of_memoized (port : String → String → Decision) :
    ∀ (ks : List (String × String)) (memo : Memo) (k : String × String),
      (lookupMemo memo k).isSome = true →
      promptCount (runResolves port memo ks) k = 0 := by
  intro ks
  induction ks with
  | nil => intro memo k _; rfl
  | cons j js ih =>
    intro memo k hk
    rw [runResolves]
    cases hj : lookupMemo memo j with
    | some d =>
      simp only [resolveNotNullDecision, hj]
      rw [promptCount_cons]
      simp only [Bool.false_and, Bool.false_eq_true, if_false, Nat.zero_add]
      exact ih memo k hk
    | none =>
      simp only [resolveNotNullDecision, hj]
      rw [promptCount_cons]
      have hjk : ¬(j = k) := by
        intro hc
        rw [← hc] at hk
        rw [hj] at hk
        simp at hk
      simp only [Bool.true_and, decide_eq_true_eq, hjk, if_false, Nat.zero_add]
      rcases ho : lookupMemo memo k with _ | d
      · rw [ho] at hk; simp at hk
      · exact ih (memo ++ [(j, port j.1 j.2)]) k
          (by rw [lookupMemo_append_of_some memo j k d (port j.1 j.2) ho]; rfl)

theorem promptCount_le_one (port : String → String → Decision) :
    ∀ (ks : List (String × String)) (memo : Memo) (k : String × String),
      promptCount (runResolves port memo ks) k ≤ 1 := by
  intro ks
  induction ks with
  | nil => intro memo k; simp [runResolves, promptCount]
  | cons j js ih =>
    intro memo k
    rw [runResolves]
    cases hj : lookupMemo memo j with
    | some d =>
      simp only [resolveNotNullDecision, hj]
      rw [promptCount_cons]
      simp only [Bool.false_and, Bool.false_eq_true, if_false, Nat.zero_add]
      exact ih memo k
    | none =>
      simp only [resolveNotNullDecision, hj]
      rw [promptCount_cons]
      by_cases hjk : j = k
      · subst hjk
        simp only [Bool.true_and, decide_eq_true_eq]
        rw [if_pos trivial]
        have hz : promptCount (runResolves port (memo ++ [(j, port j.1 j.2)]) js) j
            = 0 := by
          apply promptCount_zero_of_memoized
          rcases lookupMemo_append_self memo j (port j.1 j.2) with h1 | h1
          · rw [h1]; rfl
          · rw [hj] at h1; simp at h1
        omega
      · simp only [Bool.true_and, decide_eq_true_eq, hjk, if_false, Nat.zero_add]
        exact ih (memo ++ [(j, port j.1 j.2)]) k


/-- Claim C5: within a single Inspector lifetime the memo starts
empty, and at most one NOT NULL resolution prompt is ever issued per
(table, column) pair; moreover once a decision for a pair is stored in
the memo, resolving the same pair again returns the stored decision
with the memo unchanged and without invoking the Interaction Port. -/
theorem resolve_prompts_at_most_once (port : String → String → Decision)
    (ks : List (String × String)) (k : String × String) :
    promptCount (runResolves port [] ks) k ≤ 1
      ∧ ∀ (memo : Memo) (d : Decision), lookupMemo memo k = some d →
          resolveNotNullDecision port memo k = (d, memo, false) := by
  refine ⟨promptCount_le_one port ks [] k, ?_⟩
  intro memo d h
  unfold resolveNotNullDecision
  rw [h]

/-- Witness for claim C5: a memoized pair is answered from the memo
without a prompt. -/
theorem resolve_prompts_at_most_once_witness :
    resolveNotNullDecision (fun _ _ => Decision.drop)
        [(("t", "c"), Decision.drop)] ("t", "c")
      = (Decision.drop, [(("t", "c"), Decision.drop)], false) :=
  (resolve_prompts_at_most_once (fun _ _ => Decision.drop) [] ("t", "c")).2
    [(("t", "c"), Decision.drop)] Decision.drop (by decide)

/-- Model of `new_row[column_name] = value` on a Python dict: replace
in place when the key exists, append otherwise. -/
def setRowValue (row : Row) (c : String) (v : Value) : Row :=
  if row.any (fun p => decide (p.1 = c)) then
    row.map (fun p => if p.1 = c then (c, v) else p)
  else row ++ [(c, v)]

/-- Embedding of PostgresInspector._replace_null_with_default from
database.py: in every row whose value at the column is missing or
NULL (`row.get(column_name) is None`), store the substitute string;
other rows are kept as they are. -/
def replaceNullWithDefault (c : String) (rows : List Row) (v : String) : List Row :=
  rows.map (fun row =>
    match lookupAssoc row c with
    | some w => if w = Value.null then setRowValue row c (Value.str v) else row
    | none => setRowValue row c (Value.str v))

/-- Outcome the database driver reports for one INSERT attempt: all
rows inserted, a NOT NULL violation carrying the diagnostic table and
column names (either may be absent), or any other error. -/
inductive DbResp where
  | ok
  | nnv (tbl : Option String) (col : Option String)
  | otherError
deriving DecidableEq

/-- Result of insert_rows: the returned row count with the final memo,
the re-raised NOT NULL violation lacking a column name, the re-raised
other error, or an exhausted response trace. -/
inductive InsertResult where
  | inserted (count : Nat) (memo : Memo)
  | fatalNoColumn
  | fatalOther
  | noResponse
deriving DecidableEq

/-- A driver response the NULL-conflict protocol recovers from: a NOT
NULL violation whose diagnostic carries a non-empty column name. -/
def recoverableResp : DbResp → Bool
  | DbResp.nnv _ colOpt => decide (colOpt.getD "" ≠ "")
  | _ => false

/-- Embedding of PostgresInspector.insert_rows from database.py.  The
driver is modelled by the trace of responses successive insert
attempts receive.  An empty column or row list returns 0 without
touching the database.  A NOT NULL violation without a column name is
re-raised; with a column name the decision for (table, column) is
resolved through the memo or the Interaction Port, and the insert is
retried after either dropping the constraint (same rows) or
substituting the captured default for the NULLs of that column. -/
def insertRows (port : String → String → Decision) (tableName : String)
    (columns : List String) : List DbResp → List Row → Memo → InsertResult
  | resps, rows, memo =>
    if columns.isEmpty || rows.isEmpty then InsertResult.inserted 0 memo
    else
      match resps with
      | [] => InsertResult.noResponse
      | DbResp.ok :: _ => InsertResult.inserted rows.length memo
      | DbResp.otherError :: _ => InsertResult.fatalOther
      | DbResp.nnv tblOpt colOpt :: rest =>
        let tbl := tblOpt.getD tableName
        let col := colOpt.getD ""
        if col = "" then InsertResult.fatalNoColumn
        else
          let r := resolveNotNullDecision port memo (tbl, col)
          match r.1 with
          | Decision.drop => insertRows port tableName columns rest rows r.2.1
          | Decision.useDefault v =>
            insertRows port tableName columns rest
              (replaceNullWithDefault col rows v) r.2.1

theorem replaceNull_length (c : String) (rows : List Row) (v : String) :
    (replaceNullWithDefault c rows v).length = rows.length := by
  unfold replaceNullWithDefault
  exact List.length_map rows _

theorem replaceNull_ne_nil (c : String) (rows : List Row) (v : String)
    (h : rows ≠ []) : replaceNullWithDefault c rows v ≠ [] := by
  unfold replaceNullWithDefault
  simp [h]

/-- Claim C6: an insert batch with columns and rows ends in the fatal
NOT NULL result exactly when the first driver response that the
NULL-conflict protocol cannot recover from is a NOT NULL violation
lacking a column name; every violation that does carry a column name
is recovered (memoized decision or prompt, then DROP NOT NULL or null
substitution, then retry) and does not propagate, so that a trace
whose first non-recoverable response is a success yields the full row
count. -/
theorem insert_rows_spec (port : String → String → Decision) (tableName : String)
    (columns : List String) :
    ∀ (resps : List DbResp) (rows : List Row) (memo : Memo),
      columns ≠ [] → rows ≠ [] →
      ((insertRows port tableName columns resps rows memo = InsertResult.fatalNoColumn
          ↔ ∃ t c, (resps.dropWhile recoverableResp).head? = some (DbResp.nnv t c))
        ∧ ((resps.dropWhile recoverableResp).head? = some DbResp.ok →
            ∃ m, insertRows port tableName columns resps rows memo
              = InsertResult.inserted rows.length m)) := by
  intro resps
  induction resps with
  | nil =>
    intro rows memo hc hr
    have hguard : (columns.isEmpty || rows.isEmpty) = false := by
      cases columns
      · exact absurd rfl hc
      · cases rows
        · exact absurd rfl hr
        · rfl
    constructor
    · constructor
      · intro h
        rw [insertRows, hguard] at h
        simp at h
      · rintro ⟨t, c, h⟩
        simp [List.dropWhile] at h
    · intro h
      simp [List.dropWhile] at h
  | cons r rest ih =>
    intro rows memo hc hr
    have hguard : (columns.isEmpty || rows.isEmpty) = false := by
      cases columns
      · exact absurd rfl hc
      · cases rows
        · exact absurd rfl hr
        · rfl
    cases r with
    | ok =>
      have hres : insertRows port tableName columns (DbResp.ok :: rest) rows memo
          = InsertResult.inserted rows.length memo := by
        rw [insertRows, hguard]
        simp
      have hhead : ((DbResp.ok :: rest).dropWhile recoverableResp).head?
          = some DbResp.ok := by
        rw [List.dropWhile_cons]
        simp [recoverableResp]
      constructor
      · rw [hres, hhead]
        constructor
        · intro h; simp at h
        · rintro ⟨t, c, h⟩; simp at h
      · intro _
        exact ⟨memo, hres⟩
    | otherError =>
      have hres : insertRows port tableName columns (DbResp.otherError :: rest) rows memo
          = InsertResult.fatalOther := by
        rw [insertRows, hguard]
        simp
      have hhead : ((DbResp.otherError :: rest).dropWhile recoverableResp).head?
          = some DbResp.otherError := by
        rw [List.dropWhile_cons]
        simp [recoverableResp]
      constructor
      · rw [hres, hhead]
        constructor
        · intro h; simp at h
        · rintro ⟨t, c, h⟩; simp at h
      · intro h
        rw [hhead] at h
        simp at h
    | nnv tblOpt colOpt =>
      by_cases hcol : colOpt.getD "" = ""
      · have hres : insertRows port tableName columns
            (DbResp.nnv tblOpt colOpt :: rest) rows memo
              = InsertResult.fatalNoColumn := by
          rw [insertRows, hguard]
          simp [hcol]
        have hhead : ((DbResp.nnv tblOpt colOpt :: rest).dropWhile recoverableResp).head?
            = some (DbResp.nnv tblOpt colOpt) := by
          rw [List.dropWhile_cons]
          simp [recoverableResp, hcol]
        constructor
        · rw [hres, hhead]
          constructor
          · intro _
            exact ⟨tblOpt, colOpt, rfl⟩
          · intro _
            rfl
        · intro h
          rw [hhead] at h
          simp at h
      · have hrec : recoverableResp (DbResp.nnv tblOpt colOpt) = true := by
          simp [recoverableResp, hcol]
        have hdrop : ((DbResp.nnv tblOpt colOpt :: rest).dropWhile recoverableResp)
            = rest.dropWhile recoverableResp := by
          rw [List.dropWhile_cons, hrec]
          simp
        cases hdec : (resolveNotNullDecision port memo
            (tblOpt.getD tableName, colOpt.getD "")).1 with
        | drop =>
          have hstep : insertRows port tableName columns
              (DbResp.nnv tblOpt colOpt :: rest) rows memo
                = insertRows port tableName columns rest rows
                  (resolveNotNullDecision port memo
                    (tblOpt.getD tableName, colOpt.getD "")).2.1 := by
            rw [insertRows, hguard]
            simp only [Bool.false_eq_true, if_false]
            rw [if_neg hcol]
            rw [hdec]
          have h2 := ih rows
            (resolveNotNullDecision port memo
              (tblOpt.getD tableName, colOpt.getD "")).2.1 hc hr
          constructor
          · rw [hstep, hdrop]
            exact h2.1
          · intro h
            rw [hdrop] at h
            rcases h2.2 h with ⟨m, hm⟩
            exact ⟨m, by rw [hstep]; exact hm⟩
        | useDefault v =>
          have hr2 : replaceNullWithDefault (colOpt.getD "") rows v ≠ [] :=
            replaceNull_ne_nil _ _ _ hr
          have hstep : insertRows port tableName columns
              (DbResp.nnv tblOpt colOpt :: rest) rows memo
                = insertRows port tableName columns rest
                  (replaceNullWithDefault (colOpt.getD "") rows v)
                  (resolveNotNullDecision port memo
                    (tblOpt.getD tableName, colOpt.getD "")).2.1 := by
            rw [insertRows, hguard]
            simp only [Bool.false_eq_true, if_false]
            rw [if_neg hcol]
            rw [hdec]
          have h2 := ih (replaceNullWithDefault (colOpt.getD "") rows v)
            (resolveNotNullDecision port memo
              (tblOpt.getD tableName, colOpt.getD "")).2.1 hc hr2
          constructor
          · rw [hstep, hdrop]
            exact h2.1
          · intro h
            rw [hdrop] at h
            rcases h2.2 h with ⟨m, hm⟩
            rw [replaceNull_length] at hm
            exact ⟨m, by rw [hstep]; exact hm⟩

/-- Witness for claim C6: one NOT NULL violation carrying a column
name followed by a success; the batch is recovered by substitution and
reports the full count. -/
theorem insert_rows_spec_witness :
    ∃ m, insertRows (fun _ _ => Decision.useDefault "0") "t" ["a"]
        [DbResp.nnv none (some "a"), DbResp.ok] [[("a", Value.null)]] []
      = InsertResult.inserted 1 m :=
  (insert_rows_spec (fun _ _ => Decision.useDefault "0") "t" ["a"]
    [DbResp.nnv none (some "a"), DbResp.ok] [[("a", Value.null)]] []
    (by decide) (by decide)).2 (by decide)
